import Mathlib

/-!
# Connexio sync server (`server/main.go`)

A shallow embedding of the shared-state store of the Connexio relay: the
current item, the saved slots, the two persisted JSON documents and the HTTP
handlers that operate on them.

* Go strings are byte sequences; they are lists of naturals (bytes, below 256).
* Go pointers are explicit: the slot map holds addresses of `SavedSlot`
  objects in an append-only object heap, and `currentItem` is a pointer that
  is nil, points to a freshly allocated item, or points into a slot object
  (`&slot.Item`).
* Everything a handler obtains from its environment (the decoded request, the
  generated UUID, the clock, the outcome of each file-system call) is an
  explicit argument.
-/

namespace Connexio

/-! ## Go strings -/

/-- A Go string: an immutable sequence of bytes. `len` is `List.length`,
`s[:n]` is `List.take n`, `+` is `++`. -/
abbrev GoString := List Nat

/-- The literal `"text"`. -/
def strText : GoString := [116, 101, 120, 116]

/-- The literal `"file"`. -/
def strFile : GoString := [102, 105, 108, 101]

/-- The literal `"..."`. -/
def strEllipsis : GoString := [46, 46, 46]

/-- The literal `"/slots/"`. -/
def strSlotsPrefix : GoString := [47, 115, 108, 111, 116, 115, 47]

/-- The literal `"/load"`. -/
def strLoadSuffix : GoString := [47, 108, 111, 97, 100]

/-- The literal `"Slot not found"`. -/
def strSlotNotFound : GoString :=
  [83, 108, 111, 116, 32, 110, 111, 116, 32, 102, 111, 117, 110, 100]

/-- Go `strings.TrimPrefix(s, pre)`. -/
def trimPrefix (s pre : GoString) : GoString :=
  if pre.isPrefixOf s then s.drop pre.length else s

/-- Go `strings.TrimSuffix(s, suf)`. -/
def trimSuffix (s suf : GoString) : GoString :=
  if suf.isSuffixOf s then s.take (s.length - suf.length) else s

/-! ## UTF-8, as Go's `unicode/utf8` decodes it -/

/-- Range accepted for the second byte of a multi-byte sequence that starts
with `b0` (the `acceptRanges` table of `unicode/utf8`). -/
def acceptRange (b0 : Nat) : Nat × Nat :=
  if b0 = 0xE0 then (0xA0, 0xBF)
  else if b0 = 0xED then (0x80, 0x9F)
  else if b0 = 0xF0 then (0x90, 0xBF)
  else if b0 = 0xF4 then (0x80, 0x8F)
  else (0x80, 0xBF)

/-- A continuation byte `0x80..0xBF`. -/
def isCont (b : Nat) : Bool := decide (0x80 ≤ b) && decide (b ≤ 0xBF)

/-- The second byte lies in the range accepted after `b0`. -/
def isSecond (b0 b1 : Nat) : Bool :=
  decide ((acceptRange b0).1 ≤ b1) && decide (b1 ≤ (acceptRange b0).2)

/-- Width of the well-formed UTF-8 sequence at the head of `s`, as
`utf8.DecodeRuneInString` finds it; `none` stands for its answer
`(RuneError, 1)` on an ill-formed or truncated sequence (and for the empty
string). -/
def runeWidth : GoString → Option Nat
  | [] => none
  | b0 :: rest =>
    if b0 < 0x80 then some 1
    else if 0xC2 ≤ b0 ∧ b0 ≤ 0xDF then
      match rest with
      | b1 :: _ => if isSecond b0 b1 then some 2 else none
      | _ => none
    else if 0xE0 ≤ b0 ∧ b0 ≤ 0xEF then
      match rest with
      | b1 :: b2 :: _ => if isSecond b0 b1 && isCont b2 then some 3 else none
      | _ => none
    else if 0xF0 ≤ b0 ∧ b0 ≤ 0xF4 then
      match rest with
      | b1 :: b2 :: b3 :: _ =>
        if isSecond b0 b1 && isCont b2 && isCont b3 then some 4 else none
      | _ => none
    else none

/-- The characters (runes) of a Go string, each as the bytes that encode it,
in the way `for range s` and `utf8.RuneCountInString` walk a string: a
well-formed sequence is one character, any other byte is a character of its
own. The first argument bounds the number of steps. -/
def runeChunks : Nat → GoString → List GoString
  | 0, _ => []
  | _, [] => []
  | fuel + 1, b :: rest =>
    match runeWidth (b :: rest) with
    | some w => (b :: rest).take w :: runeChunks fuel ((b :: rest).drop w)
    | none => [b] :: runeChunks fuel rest

/-- The characters of `s`; every step consumes a byte, so `s.length` steps
reach the end of the string. -/
def chars (s : GoString) : List GoString := runeChunks s.length s

/-- The UTF-8 encoding of U+FFFD, the Unicode replacement character. -/
def replacementChar : GoString := [0xEF, 0xBF, 0xBD]

/-- A string after a trip through `encoding/json`. `json.Marshal` documents:
"String values encode as JSON strings coerced to valid UTF-8, replacing
invalid bytes with the Unicode replacement rune"; decoding the written text
gives back that coerced string. Well-formed sequences are kept as they
are. -/
def jsonString (s : GoString) : GoString :=
  ((chars s).map fun c => if (runeWidth c).isSome then c else replacementChar).flatten

/-! ## Data model -/

/-- Go `SyncItem`: the current synced content. -/
structure SyncItem where
  /-- Field `Type`: "text", "image" or "file". -/
  Type_ : GoString
  Content : GoString
  Filename : GoString
  MimeType : GoString
  FileID : GoString
  Timestamp : GoString
  deriving DecidableEq, Repr

/-- The zero value `SyncItem{}`. -/
def SyncItem.zero : SyncItem := ⟨[], [], [], [], [], []⟩

/-- Go `SavedSlot`: a saved item slot. -/
structure SavedSlot where
  ID : GoString
  Name : GoString
  /-- Field `Type`. -/
  Type_ : GoString
  SavedAt : GoString
  Preview : GoString
  Item : SyncItem
  deriving DecidableEq, Repr

/-- The zero value `SavedSlot{}`. -/
def SavedSlot.zero : SavedSlot := ⟨[], [], [], [], [], SyncItem.zero⟩

/-- A value of type `*SyncItem` as the server holds it in `currentItem`. -/
inductive ItemPtr where
  /-- The nil pointer. -/
  | null
  /-- Pointer to a newly allocated item (`&item`, `&SyncItem{...}`) that
  nothing else refers to; the cell is given by its content. -/
  | fresh (item : SyncItem)
  /-- Pointer to the `Item` field of the slot object at `addr` (`&slot.Item`). -/
  | slotItem (addr : Nat)
  deriving DecidableEq, Repr

/-! ## Go maps, as association lists with unique keys -/

/-- Map lookup `m[k]` with its `ok` flag. -/
def mapGet {β : Type} : List (GoString × β) → GoString → Option β
  | [], _ => none
  | (k', v) :: rest, k => if k' = k then some v else mapGet rest k

/-- Go `delete(m, k)`. -/
def mapDelete {β : Type} (m : List (GoString × β)) (k : GoString) : List (GoString × β) :=
  m.filter fun e => decide (e.1 ≠ k)

/-- Map assignment `m[k] = v`. -/
def mapSet {β : Type} (m : List (GoString × β)) (k : GoString) (v : β) : List (GoString × β) :=
  (k, v) :: mapDelete m k

/-- Go `Server`, without its lock. -/
structure Server where
  currentItem : ItemPtr
  /-- Field `slots map[string]*SavedSlot`: slot ID to the address of the slot object. -/
  slots : List (GoString × Nat)
  dataDir : GoString
  deriving DecidableEq, Repr

/-! ## The data directory -/

/-- What `json.Unmarshal` makes of a document: the value it decodes (for
`slots.json`, the members it stores into the map, in the order of the
document), or an error that leaves the target as it was. -/
inductive Doc (α : Type) where
  | value (v : α)
  | malformed
  deriving DecidableEq, Repr

/-- The directory `s.dataDir`: `current.json`, `slots.json` (each absent or
present) and the blobs under `files/`, by name. -/
structure Disk where
  current : Option (Doc SyncItem)
  slots : Option (Doc (List (GoString × SavedSlot)))
  files : List (GoString × GoString)
  deriving DecidableEq, Repr

/-- Outcome of `os.WriteFile` or `os.Remove` on a document: success, or a
failure that leaves the document as the file system decides. -/
inductive WriteResult (α : Type) where
  | ok
  | failed (left : Option (Doc α))
  deriving DecidableEq, Repr

/-- Outcomes of the two file operations of one `saveData`. -/
structure FlushIO where
  current : WriteResult SyncItem
  slots : WriteResult (List (GoString × SavedSlot))
  deriving DecidableEq, Repr

/-- A flush whose writes both succeed. -/
def FlushIO.success : FlushIO := ⟨.ok, .ok⟩

/-- The process and its data directory: the `Server` value, the `SavedSlot`
objects that its pointers refer to (address = position; objects are never
freed while referenced and the model never frees), and the disk. -/
structure State where
  s : Server
  heap : List SavedSlot
  disk : Disk
  deriving DecidableEq, Repr

/-- Read the slot object at an address. Every address the server holds is
below `heap.length` (`State.WF`). -/
def State.obj (σ : State) (addr : Nat) : SavedSlot := σ.heap.getD addr SavedSlot.zero

/-- Dereference `*s.currentItem`, for a pointer that is not nil. -/
def State.deref (σ : State) : ItemPtr → SyncItem
  | .null => SyncItem.zero
  | .fresh item => item
  | .slotItem addr => (σ.obj addr).Item

/-- The current item as a value: `none` when `currentItem` is nil. -/
def State.current (σ : State) : Option SyncItem :=
  match σ.s.currentItem with
  | .null => none
  | p => some (σ.deref p)

/-- The slot stored under an ID, as a value: `*s.slots[id]`. -/
def State.slotAt (σ : State) (id : GoString) : Option SavedSlot :=
  (mapGet σ.s.slots id).map σ.obj

/-- Every pointer the server holds refers to an allocated object, and the
keys of the slot map are distinct. -/
def State.WF (σ : State) : Prop :=
  (∀ e ∈ σ.s.slots, e.2 < σ.heap.length) ∧
  (∀ a, σ.s.currentItem = .slotItem a → a < σ.heap.length) ∧
  (σ.s.slots.map Prod.fst).Nodup

/-! ## Persistence -/

/-- A `SyncItem` after a trip through `encoding/json`: every field is a string. -/
def jsonItem (i : SyncItem) : SyncItem :=
  ⟨jsonString i.Type_, jsonString i.Content, jsonString i.Filename,
   jsonString i.MimeType, jsonString i.FileID, jsonString i.Timestamp⟩

/-- A `SavedSlot` after a trip through `encoding/json` (an empty `preview` is
omitted on writing and read back as empty). -/
def jsonSlot (x : SavedSlot) : SavedSlot :=
  ⟨jsonString x.ID, jsonString x.Name, jsonString x.Type_, jsonString x.SavedAt,
   jsonString x.Preview, jsonItem x.Item⟩

/-- The members of the object that `json.Marshal(s.slots)` writes, as they
decode: one per key, in the byte order of the keys (`encoding/json` sorts map
keys), each slot object read through its pointer. -/
def marshalSlots (σ : State) : List (GoString × SavedSlot) :=
  (σ.s.slots.insertionSort fun a b => a.1 ≤ b.1).map fun e =>
    (jsonString e.1, jsonSlot (σ.obj e.2))

/-- The document left by a write (or remove) that was asked to leave `new`. -/
def WriteResult.leave {α : Type} (new : Option (Doc α)) : WriteResult α → Option (Doc α)
  | .ok => new
  | .failed left => left

/-- Go `(*Server).saveData`. Errors of `json.Marshal` and of the file
operations are dropped, as in the source. -/
def saveData (σ : State) (io : FlushIO) : State :=
  let current :=
    match σ.s.currentItem with
    | .null => io.current.leave none
    | p => io.current.leave (some (.value (jsonItem (σ.deref p))))
  let slots := io.slots.leave (some (.value (marshalSlots σ)))
  { σ with disk := { σ.disk with current := current, slots := slots } }

/-- One member of the slots document decoded into the map: a new `SavedSlot`
object is allocated and stored under the key. -/
def loadEntry (σ : State) (e : GoString × SavedSlot) : State :=
  { σ with s := { σ.s with slots := mapSet σ.s.slots e.1 σ.heap.length },
           heap := σ.heap ++ [e.2] }

/-- Go `(*Server).loadData` (creating the directories apart). -/
def loadData (σ : State) : State :=
  let σ₁ :=
    match σ.disk.current with
    | some (.value item) => { σ with s := { σ.s with currentItem := .fresh item } }
    | _ => σ
  match σ₁.disk.slots with
  | some (.value entries) => entries.foldl loadEntry σ₁
  | _ => σ₁

/-- Go `NewServer`: an empty server over the data directory, then `loadData`. -/
def NewServer (dataDir : GoString) (disk : Disk) : State :=
  loadData { s := { currentItem := .null, slots := [], dataDir := dataDir },
             heap := [], disk := disk }

/-! ## Handlers -/

/-- What a handler hands to the response writer. -/
inductive Body where
  /-- Plain text of `http.Error`. -/
  | error (msg : GoString)
  /-- The object `{"status": "ok"}`. -/
  | statusOk
  /-- The object `{"status": "ok", "fileId": fileId}`. -/
  | statusOkFileId (fileId : GoString)
  /-- The object `{"status": "ok", "id": id}`. -/
  | statusOkId (id : GoString)
  /-- The empty object `{}`. -/
  | emptyObject
  /-- A `SyncItem` handed to the JSON encoder. -/
  | item (i : SyncItem)
  deriving DecidableEq, Repr

/-- Status code and body of a response. -/
structure Response where
  status : Nat
  body : Body
  deriving DecidableEq, Repr

/-- Go `getCurrentHandler`. -/
def getCurrentHandler (σ : State) : Response :=
  match σ.s.currentItem with
  | .null => ⟨200, .emptyObject⟩
  | p => ⟨200, .item (σ.deref p)⟩

/-- Go `setCurrentHandler`; `body` is the outcome of decoding the request
body into a `SyncItem`. -/
def setCurrentHandler (σ : State) (body : Except GoString SyncItem) (io : FlushIO) :
    State × Response :=
  match body with
  | .error e => (σ, ⟨400, .error e⟩)
  | .ok item =>
    (saveData { σ with s := { σ.s with currentItem := .fresh item } } io, ⟨200, .statusOk⟩)

/-- Go `deleteCurrentHandler`. -/
def deleteCurrentHandler (σ : State) (io : FlushIO) : State × Response :=
  (saveData { σ with s := { σ.s with currentItem := .null } } io, ⟨200, .statusOk⟩)

/-- The part named `file` of a multipart upload. -/
structure UploadFile where
  /-- Field `header.Filename`. -/
  filename : GoString
  /-- Result of `header.Header.Get("Content-Type")`. -/
  contentType : GoString
  /-- The bytes of the part. -/
  data : GoString
  deriving DecidableEq, Repr

/-- Everything `uploadHandler` gets from the request and the system. -/
structure UploadCall where
  /-- Outcome of `r.ParseMultipartForm`. -/
  parse : Except GoString Unit
  /-- Outcome of `r.FormFile("file")`. -/
  formFile : Except GoString UploadFile
  /-- Result of `uuid.New().String()`. -/
  fileID : GoString
  /-- Outcome of `os.Create`. -/
  create : Except GoString Unit
  /-- Outcome of `io.Copy`: on failure, the error and the bytes that reached the file. -/
  copy : Except (GoString × GoString) Unit
  /-- Result of `time.Now().Format(time.RFC3339)`. -/
  now : GoString
  flush : FlushIO

/-- Go `uploadHandler`. -/
def uploadHandler (σ : State) (c : UploadCall) : State × Response :=
  match c.parse with
  | .error e => (σ, ⟨400, .error e⟩)
  | .ok _ =>
    match c.formFile with
    | .error e => (σ, ⟨400, .error e⟩)
    | .ok file =>
      match c.create with
      | .error e => (σ, ⟨500, .error e⟩)
      | .ok _ =>
        match c.copy with
        | .error (e, written) =>
          ({ σ with disk := { σ.disk with files := mapSet σ.disk.files c.fileID written } },
           ⟨500, .error e⟩)
        | .ok _ =>
          let σ₁ : State :=
            { σ with disk := { σ.disk with files := mapSet σ.disk.files c.fileID file.data } }
          let item : SyncItem :=
            { Type_ := strFile, Content := [], Filename := file.filename,
              MimeType := file.contentType, FileID := c.fileID, Timestamp := c.now }
          (saveData { σ₁ with s := { σ₁.s with currentItem := .fresh item } } c.flush,
           ⟨200, .statusOkFileId c.fileID⟩)

/-- The body of a create-slot request: `name` and `item`. -/
structure CreateSlotRequest where
  Name : GoString
  Item : SyncItem
  deriving DecidableEq, Repr

/-- Go `createSlotHandler`; `body` is the outcome of decoding the request,
`slotID` the generated UUID, `now` the formatted time. -/
def createSlotHandler (σ : State) (body : Except GoString CreateSlotRequest)
    (slotID now : GoString) (io : FlushIO) : State × Response :=
  match body with
  | .error e => (σ, ⟨400, .error e⟩)
  | .ok req =>
    let preview : GoString :=
      if req.Item.Type_ = strText ∧ req.Item.Content.length > 0 then
        if req.Item.Content.length > 50 then req.Item.Content.take 50 ++ strEllipsis
        else req.Item.Content
      else []
    let slot : SavedSlot :=
      { ID := slotID, Name := req.Name, Type_ := req.Item.Type_, SavedAt := now,
        Preview := preview, Item := req.Item }
    (saveData { σ with s := { σ.s with slots := mapSet σ.s.slots slotID σ.heap.length },
                       heap := σ.heap ++ [slot] } io,
     ⟨200, .statusOkId slotID⟩)

/-- Go `loadSlotHandler`; `path` is `r.URL.Path`. -/
def loadSlotHandler (σ : State) (path : GoString) (io : FlushIO) : State × Response :=
  let slotID := trimSuffix (trimPrefix path strSlotsPrefix) strLoadSuffix
  match mapGet σ.s.slots slotID with
  | none => (σ, ⟨404, .error strSlotNotFound⟩)
  | some addr =>
    (saveData { σ with s := { σ.s with currentItem := .slotItem addr } } io, ⟨200, .statusOk⟩)

/-- Go `deleteSlotHandler`; `path` is `r.URL.Path`. -/
def deleteSlotHandler (σ : State) (path : GoString) (io : FlushIO) : State × Response :=
  let slotID := trimPrefix path strSlotsPrefix
  (saveData { σ with s := { σ.s with slots := mapDelete σ.s.slots slotID } } io,
   ⟨200, .statusOk⟩)

/-- The request path of `POST /slots/{id}/load`. -/
def loadPath (id : GoString) : GoString := strSlotsPrefix ++ id ++ strLoadSuffix

/-- The request path of `DELETE /slots/{id}`. -/
def deletePath (id : GoString) : GoString := strSlotsPrefix ++ id

/-! ## The preview rule of the specification -/

/-- The preview as the specification words it, length measured in characters:
for a text item, the first 50 characters and `"..."` when the content has
more than 50 characters, the whole content otherwise; empty for any other
kind. -/
def previewSpec (item : SyncItem) : GoString :=
  if item.Type_ = strText then
    if (chars item.Content).length > 50 then
      ((chars item.Content).take 50).flatten ++ strEllipsis
    else item.Content
  else []

/-! ## Operations on the current item -/

/-- The operations that change the current item. -/
inductive CurrentOp where
  | setCurrent (body : Except GoString SyncItem) (io : FlushIO)
  | clearCurrent (io : FlushIO)
  | ingestUpload (c : UploadCall)
  | loadSlot (path : GoString) (io : FlushIO)

/-- Run an operation on the current item through its handler. -/
def CurrentOp.run : CurrentOp → State → State × Response
  | .setCurrent body io, σ => setCurrentHandler σ body io
  | .clearCurrent io, σ => deleteCurrentHandler σ io
  | .ingestUpload c, σ => uploadHandler σ c
  | .loadSlot path io, σ => loadSlotHandler σ path io

/-! ## Concrete stores and requests -/

/-- The data directory `"./data"`. -/
def exDataDir : GoString := [46, 47, 100, 97, 116, 97]

/-- The time stamp `"2024-01-01T00:00:00Z"`. -/
def exNow : GoString :=
  [50, 48, 50, 52, 45, 48, 49, 45, 48, 49, 84, 48, 48, 58, 48, 48, 58, 48, 48, 90]

/-- The slot ID `"s1"`. -/
def exSlotID : GoString := [115, 49]

/-- The slot name `"greeting"`. -/
def exName : GoString := [103, 114, 101, 101, 116, 105, 110, 103]

/-- The text item with content `"hello"`. -/
def helloItem : SyncItem :=
  { Type_ := strText, Content := [104, 101, 108, 108, 111], Filename := [], MimeType := [],
    FileID := [], Timestamp := exNow }

/-- A server started on an empty data directory. -/
def emptyStore : State := NewServer exDataDir ⟨none, none, []⟩

/-- The store after `setCurrent(hello)`, `createSlot("greeting", hello)` with
generated ID `"s1"`, and `clearCurrent()`. -/
def exState : State :=
  (deleteCurrentHandler
    (createSlotHandler (setCurrentHandler emptyStore (.ok helloItem) FlushIO.success).1
      (.ok ⟨exName, helloItem⟩) exSlotID exNow FlushIO.success).1
    FlushIO.success).1

/-- The slot that `exState` holds under `"s1"`. -/
def exSlot : SavedSlot :=
  { ID := exSlotID, Name := exName, Type_ := strText, SavedAt := exNow,
    Preview := [104, 101, 108, 108, 111], Item := helloItem }

/-- An upload of `a.txt`, `text/plain`, bytes `"hello"`, stored as blob `"b1"`. -/
def exUpload : UploadCall :=
  { parse := .ok (),
    formFile := .ok ⟨[97, 46, 116, 120, 116], [116, 101, 120, 116, 47, 112, 108, 97, 105, 110],
      [104, 101, 108, 108, 111]⟩,
    fileID := [98, 49], create := .ok (), copy := .ok (), now := exNow,
    flush := FlushIO.success }

/-- The same upload when copying the bytes fails after two bytes. -/
def exUploadFailing : UploadCall :=
  { exUpload with copy := .error ([101, 114, 114], [104, 101]) }

/-- Text of 50 characters and 51 bytes: 49 times `a`, then `é` (bytes C3 A9). -/
def splitContent : GoString := List.replicate 49 97 ++ [0xC3, 0xA9]

/-- The text item with content `splitContent`. -/
def splitItem : SyncItem :=
  { Type_ := strText, Content := splitContent, Filename := [], MimeType := [],
    FileID := [], Timestamp := exNow }

/-- The store after `createSlot("greeting", splitItem)` on an empty store,
with generated ID `"s1"`. -/
def splitState : State :=
  (createSlotHandler emptyStore (.ok ⟨exName, splitItem⟩) exSlotID exNow FlushIO.success).1

/-- An upload whose `filename` parameter starts with the byte FF, which is
not UTF-8. -/
def exUploadRaw : UploadCall :=
  { exUpload with
    formFile := .ok ⟨[0xFF, 46, 116, 120, 116],
      [116, 101, 120, 116, 47, 112, 108, 97, 105, 110], [104, 101, 108, 108, 111]⟩ }

/-- The store after `setCurrent(hello)` and `createSlot("greeting", hello)`:
a current item and one slot. -/
def helloState : State :=
  (createSlotHandler (setCurrentHandler emptyStore (.ok helloItem) FlushIO.success).1
    (.ok ⟨exName, helloItem⟩) exSlotID exNow FlushIO.success).1

/-! ## Well-formed strings -/

/-- Well-formed UTF-8, as `utf8.ValidString` decides it: every character of
the string is a well-formed sequence. -/
def ValidUTF8 (s : GoString) : Prop := ∀ c ∈ chars s, (runeWidth c).isSome = true

instance (s : GoString) : Decidable (ValidUTF8 s) :=
  inferInstanceAs (Decidable (∀ c ∈ chars s, (runeWidth c).isSome = true))

/-- Every field of the item is well-formed UTF-8. -/
def ValidItem (i : SyncItem) : Prop :=
  ValidUTF8 i.Type_ ∧ ValidUTF8 i.Content ∧ ValidUTF8 i.Filename ∧ ValidUTF8 i.MimeType ∧
  ValidUTF8 i.FileID ∧ ValidUTF8 i.Timestamp

instance (i : SyncItem) : Decidable (ValidItem i) :=
  inferInstanceAs (Decidable (_ ∧ _))

/-- Every field of the slot is well-formed UTF-8. -/
def ValidSlot (x : SavedSlot) : Prop :=
  ValidUTF8 x.ID ∧ ValidUTF8 x.Name ∧ ValidUTF8 x.Type_ ∧ ValidUTF8 x.SavedAt ∧
  ValidUTF8 x.Preview ∧ ValidItem x.Item

instance (x : SavedSlot) : Decidable (ValidSlot x) :=
  inferInstanceAs (Decidable (_ ∧ _))

/-- Every string the store holds is well-formed UTF-8: the fields of the
current item, the slot IDs and the fields of every slot. -/
def State.ValidStrings (σ : State) : Prop :=
  (∀ i, σ.current = some i → ValidItem i) ∧
  ∀ e ∈ σ.s.slots, ValidUTF8 e.1 ∧ ValidSlot (σ.obj e.2)

/-- Every address in the slot map is allocated. -/
def State.Alloc (σ : State) : Prop := ∀ e ∈ σ.s.slots, e.2 < σ.heap.length

/-! ## Lemmas on strings and maps -/

theorem trimPrefix_append (pre s : GoString) : trimPrefix (pre ++ s) pre = s := by
  have h : pre.isPrefixOf (pre ++ s) = true :=
    List.isPrefixOf_iff_prefix.mpr (List.prefix_append pre s)
  simp [trimPrefix, h]

theorem trimSuffix_append (s suf : GoString) : trimSuffix (s ++ suf) suf = s := by
  have h : suf.isSuffixOf (s ++ suf) = true :=
    List.isSuffixOf_iff_suffix.mpr (List.suffix_append s suf)
  simp [trimSuffix, h]

/-- The load handler recovers the ID from the path of `POST /slots/{id}/load`. -/
theorem slotID_loadPath (id : GoString) :
    trimSuffix (trimPrefix (loadPath id) strSlotsPrefix) strLoadSuffix = id := by
  unfold loadPath
  rw [List.append_assoc, trimPrefix_append, trimSuffix_append]

/-- The delete handler recovers the ID from the path of `DELETE /slots/{id}`. -/
theorem slotID_deletePath (id : GoString) : trimPrefix (deletePath id) strSlotsPrefix = id :=
  trimPrefix_append _ _

theorem mapGet_mapDelete {β : Type} (m : List (GoString × β)) (k k' : GoString) :
    mapGet (mapDelete m k) k' = if k' = k then none else mapGet m k' := by
  induction m with
  | nil => simp [mapDelete, mapGet]
  | cons e rest ih =>
    obtain ⟨a, v⟩ := e
    unfold mapDelete at ih ⊢
    by_cases ha : a = k
    · subst ha
      by_cases hk : k' = a
      · subst hk; simpa [mapGet] using ih
      · have : ¬ a = k' := fun h => hk h.symm
        simpa [mapGet, this, hk] using ih
    · by_cases hk : k' = k
      · subst hk
        simpa [mapGet, ha] using ih
      · by_cases hak : a = k'
        · simp [mapGet, ha, hak, hk]
        · simpa [mapGet, ha, hak, hk] using ih

theorem mapGet_eq_none_iff {β : Type} (m : List (GoString × β)) (k : GoString) :
    mapGet m k = none ↔ ∀ e ∈ m, e.1 ≠ k := by
  induction m with
  | nil => simp [mapGet]
  | cons e rest ih =>
    obtain ⟨a, v⟩ := e
    by_cases ha : a = k
    · simp [mapGet, ha]
    · simp [mapGet, ha, ih]

theorem mapDelete_absent {β : Type} (m : List (GoString × β)) (k : GoString)
    (h : mapGet m k = none) : mapDelete m k = m := by
  rw [mapGet_eq_none_iff] at h
  unfold mapDelete
  rw [List.filter_eq_self]
  intro e he
  simpa using h e he

theorem mapDelete_idem {β : Type} (m : List (GoString × β)) (k : GoString) :
    mapDelete (mapDelete m k) k = mapDelete m k := by
  apply mapDelete_absent
  rw [mapGet_mapDelete]; simp

/-! ## Frame lemmas -/

/-- States with the same slot map and the same objects hold the same slots. -/
theorem slotAt_congr (σ τ : State) (h : τ.s.slots = σ.s.slots ∧ τ.heap = σ.heap)
    (k : GoString) : τ.slotAt k = σ.slotAt k := by
  unfold State.slotAt State.obj
  rw [h.1, h.2]

/-- A successful flush writes documents that depend only on the server and
its objects. -/
theorem saveData_success_congr (σ τ : State) (hs : σ.s = τ.s) (hh : σ.heap = τ.heap)
    (hf : σ.disk.files = τ.disk.files) :
    saveData σ FlushIO.success = saveData τ FlushIO.success := by
  obtain ⟨s, heap, c, sl, f⟩ := σ
  obtain ⟨s₂, heap₂, c₂, sl₂, f₂⟩ := τ
  simp only at hs hh hf
  subst hs hh hf
  obtain ⟨cur, slots, dir⟩ := s
  cases cur <;> rfl

/-- No operation on the current item touches the slot map or a slot object. -/
theorem CurrentOp.run_frame (op : CurrentOp) (σ : State) :
    (op.run σ).1.s.slots = σ.s.slots ∧ (op.run σ).1.heap = σ.heap := by
  cases op with
  | setCurrent body io => cases body <;> exact ⟨rfl, rfl⟩
  | clearCurrent io => exact ⟨rfl, rfl⟩
  | ingestUpload c =>
    obtain ⟨parse, formFile, fileID, create, copy, now, flush⟩ := c
    cases parse <;> cases formFile <;> cases create <;> cases copy <;> exact ⟨rfl, rfl⟩
  | loadSlot path io =>
    simp only [CurrentOp.run, loadSlotHandler]
    split <;> exact ⟨rfl, rfl⟩

/-- A successful load of the slot object at `addr`, spelled out. -/
theorem loadSlotHandler_found (σ : State) (id : GoString) (addr : Nat) (io : FlushIO)
    (hg : mapGet σ.s.slots id = some addr) :
    loadSlotHandler σ (loadPath id) io =
      (saveData { σ with s := { σ.s with currentItem := .slotItem addr } } io,
       ⟨200, .statusOk⟩) := by
  simp only [loadSlotHandler, slotID_loadPath, hg]

/-- A slot held under `id` is the object at the address the map gives. -/
theorem slotAt_eq_some (σ : State) (id : GoString) (slot : SavedSlot)
    (h : σ.slotAt id = some slot) :
    ∃ addr, mapGet σ.s.slots id = some addr ∧ σ.obj addr = slot := by
  unfold State.slotAt at h
  cases hg : mapGet σ.s.slots id with
  | none => simp [hg] at h
  | some addr => exact ⟨addr, rfl, by simpa [hg] using h⟩

/-! ## The claims -/

/-- C2: for every store state and every item `i`, `setCurrent(i)` succeeds,
makes `i` the current item whatever it was before, and a following
`getCurrent()` answers with an item equal to `i` in every field. -/
theorem setCurrent_getCurrent (σ : State) (i : SyncItem) (io : FlushIO) :
    (setCurrentHandler σ (.ok i) io).2 = ⟨200, .statusOk⟩ ∧
    (setCurrentHandler σ (.ok i) io).1.current = some i ∧
    getCurrentHandler (setCurrentHandler σ (.ok i) io).1 = ⟨200, .item i⟩ :=
  ⟨rfl, rfl, rfl⟩

/-- C3: for every store state and every slot ID under which the store holds a
slot, `loadSlot(id)` succeeds, the current item becomes exactly the item
embedded in that slot (a following `getCurrent()` returns it), and the slot
collection is the same as before. -/
theorem loadSlot_present (σ : State) (id : GoString) (slot : SavedSlot) (io : FlushIO)
    (h : σ.slotAt id = some slot) :
    (loadSlotHandler σ (loadPath id) io).2 = ⟨200, .statusOk⟩ ∧
    (loadSlotHandler σ (loadPath id) io).1.current = some slot.Item ∧
    getCurrentHandler (loadSlotHandler σ (loadPath id) io).1 = ⟨200, .item slot.Item⟩ ∧
    (loadSlotHandler σ (loadPath id) io).1.s.slots = σ.s.slots ∧
    (loadSlotHandler σ (loadPath id) io).1.heap = σ.heap ∧
    ∀ k, (loadSlotHandler σ (loadPath id) io).1.slotAt k = σ.slotAt k := by
  obtain ⟨addr, hg, hobj⟩ := slotAt_eq_some σ id slot h
  rw [loadSlotHandler_found σ id addr io hg]
  refine ⟨rfl, ?_, ?_, rfl, rfl, fun k => rfl⟩
  · show some (State.obj _ addr).Item = some slot.Item
    rw [← hobj]; rfl
  · show (⟨200, .item (State.obj _ addr).Item⟩ : Response) = _
    rw [← hobj]; rfl

/-- Witness for C3 on the store of the greeting scenario. -/
theorem loadSlot_present_witness :
    exState.slotAt exSlotID = some exSlot ∧
    (loadSlotHandler exState (loadPath exSlotID) FlushIO.success).1.current =
      some helloItem :=
  ⟨by decide, (loadSlot_present exState exSlotID exSlot FlushIO.success (by decide)).2.1⟩

/-- C4: for every store state and every slot ID that is not a key of the slot
map, `loadSlot(id)` answers 404 "Slot not found" and leaves the whole state
(current item, slots, documents) as it was; and the answer is 404 only when
the ID is absent. -/
theorem loadSlot_absent (σ : State) (id : GoString) (io : FlushIO) :
    (mapGet σ.s.slots id = none →
      loadSlotHandler σ (loadPath id) io = (σ, ⟨404, .error strSlotNotFound⟩)) ∧
    ((loadSlotHandler σ (loadPath id) io).2.status = 404 ↔ mapGet σ.s.slots id = none) := by
  constructor
  · intro h
    simp only [loadSlotHandler, slotID_loadPath, h]
  · cases hg : mapGet σ.s.slots id with
    | none => simp [loadSlotHandler, slotID_loadPath, hg]
    | some addr => simp [loadSlotHandler, slotID_loadPath, hg]

/-- Witness for C4: loading the unknown ID `"b1"` from the greeting store. -/
theorem loadSlot_absent_witness :
    mapGet exState.s.slots [98, 49] = none ∧
    loadSlotHandler exState (loadPath [98, 49]) FlushIO.success =
      (exState, ⟨404, .error strSlotNotFound⟩) :=
  ⟨by decide, (loadSlot_absent exState [98, 49] FlushIO.success).1 (by decide)⟩

/-- The delete handler, spelled out on the path of `DELETE /slots/{id}`. -/
theorem deleteSlotHandler_eq (σ : State) (id : GoString) (io : FlushIO) :
    deleteSlotHandler σ (deletePath id) io =
      (saveData { σ with s := { σ.s with slots := mapDelete σ.s.slots id } } io,
       ⟨200, .statusOk⟩) := by
  simp only [deleteSlotHandler, slotID_deletePath]

/-- C5: for every store state and every slot ID, present or not,
`deleteSlot(id)` answers 200; afterwards the slot map is the previous one
without the key `id` (every other slot is still there, unchanged), and the
current item is unchanged. Deleting an absent ID leaves the server value
unchanged, and deleting the same ID a second time changes nothing more (with
successful flushes the whole state, documents included, is the same as after
one delete). -/
theorem deleteSlot_total (σ : State) (id : GoString) (io : FlushIO) :
    (deleteSlotHandler σ (deletePath id) io).2 = ⟨200, .statusOk⟩ ∧
    (∀ k, mapGet (deleteSlotHandler σ (deletePath id) io).1.s.slots k =
      if k = id then none else mapGet σ.s.slots k) ∧
    (∀ k, (deleteSlotHandler σ (deletePath id) io).1.slotAt k =
      if k = id then none else σ.slotAt k) ∧
    (deleteSlotHandler σ (deletePath id) io).1.s.currentItem = σ.s.currentItem ∧
    (deleteSlotHandler σ (deletePath id) io).1.heap = σ.heap ∧
    (deleteSlotHandler σ (deletePath id) io).1.current = σ.current ∧
    (mapGet σ.s.slots id = none →
      (deleteSlotHandler σ (deletePath id) io).1.s = σ.s) ∧
    (∀ io₂,
      (deleteSlotHandler (deleteSlotHandler σ (deletePath id) io).1 (deletePath id) io₂).1.s
        = (deleteSlotHandler σ (deletePath id) io).1.s ∧
      (deleteSlotHandler (deleteSlotHandler σ (deletePath id) io).1 (deletePath id) io₂).1.heap
        = (deleteSlotHandler σ (deletePath id) io).1.heap) ∧
    (deleteSlotHandler (deleteSlotHandler σ (deletePath id) io).1 (deletePath id)
        FlushIO.success).1 = (deleteSlotHandler σ (deletePath id) FlushIO.success).1 := by
  have hr := deleteSlotHandler_eq σ id io
  refine ⟨by rw [hr], ?_, ?_, by rw [hr]; rfl, by rw [hr]; rfl, by rw [hr]; rfl, ?_, ?_, ?_⟩
  · intro k; rw [hr]; exact mapGet_mapDelete _ _ _
  · intro k; rw [hr]
    show (mapGet (mapDelete σ.s.slots id) k).map _ = _
    rw [mapGet_mapDelete]
    by_cases hk : k = id
    · simp [hk]
    · simp [hk, State.slotAt, State.obj]; rfl
  · intro h; rw [hr]
    show ({ σ.s with slots := mapDelete σ.s.slots id } : Server) = σ.s
    rw [mapDelete_absent _ _ h]
  · intro io₂; rw [deleteSlotHandler_eq, hr]
    refine ⟨?_, rfl⟩
    show ({ σ.s with slots := mapDelete (mapDelete σ.s.slots id) id } : Server) = _
    rw [mapDelete_idem]; rfl
  · simp only [deleteSlotHandler_eq]
    apply saveData_success_congr
    · show ({ σ.s with slots := mapDelete (mapDelete σ.s.slots id) id } : Server) = _
      rw [mapDelete_idem]
    · rfl
    · rfl

/-- Witness for C5: deleting the unknown ID `"b1"` from the greeting store
leaves the server value as it was. -/
theorem deleteSlot_total_witness :
    mapGet exState.s.slots [98, 49] = none ∧
    (deleteSlotHandler exState (deletePath [98, 49]) FlushIO.success).1.s = exState.s :=
  ⟨by decide, (deleteSlot_total exState [98, 49] FlushIO.success).2.2.2.2.2.2.1 (by decide)⟩

/-- C6: a saved slot is an independent value. Every operation that changes
the current item (setCurrent, clearCurrent, ingestUpload, loadSlot, with any
request and any outcome) leaves the slot map and every slot object as they
were, so every ID holds the same slot as before; this is so also when the
operation follows a `loadSlot(id)` that made the current item point to the
item of slot `id`. -/
theorem current_ops_keep_slots (σ : State) (op : CurrentOp) :
    ((op.run σ).1.s.slots = σ.s.slots ∧ (op.run σ).1.heap = σ.heap) ∧
    (∀ k, (op.run σ).1.slotAt k = σ.slotAt k) ∧
    (∀ id io k, (op.run (loadSlotHandler σ (loadPath id) io).1).1.slotAt k = σ.slotAt k) := by
  refine ⟨op.run_frame σ, fun k => slotAt_congr _ _ (op.run_frame σ) k, fun id io k => ?_⟩
  rw [slotAt_congr _ _ (op.run_frame _) k]
  exact slotAt_congr _ _ ((CurrentOp.loadSlot (loadPath id) io).run_frame σ) k

/-- C8: `ingestUpload` is atomic with respect to the current item. If the
request is malformed (the form does not parse, or has no `file` part) or the
blob write fails (the file cannot be created, or copying fails), the answer
is an error (400 or 500) and the server value, the slot objects, the current
item and both documents are as before. If every step succeeds, the answer is
200 with the blob ID, the current item is a new item of kind `"file"` with
that blob ID, the filename and MIME type of the upload and empty content, the
slots are as before, and the blob holds the uploaded bytes. -/
theorem upload_atomic (σ : State) (c : UploadCall) :
    (((∃ e, c.parse = .error e) ∨ (∃ e, c.formFile = .error e) ∨
        (∃ e, c.create = .error e) ∨ (∃ e, c.copy = .error e)) →
      ((uploadHandler σ c).2.status = 400 ∨ (uploadHandler σ c).2.status = 500) ∧
      (∃ e, (uploadHandler σ c).2.body = .error e) ∧
      (uploadHandler σ c).1.s = σ.s ∧ (uploadHandler σ c).1.heap = σ.heap ∧
      (uploadHandler σ c).1.current = σ.current ∧
      (∀ k, (uploadHandler σ c).1.slotAt k = σ.slotAt k) ∧
      (uploadHandler σ c).1.disk.current = σ.disk.current ∧
      (uploadHandler σ c).1.disk.slots = σ.disk.slots) ∧
    (∀ file, c.parse = .ok () → c.formFile = .ok file → c.create = .ok () → c.copy = .ok () →
      (uploadHandler σ c).2 = ⟨200, .statusOkFileId c.fileID⟩ ∧
      (uploadHandler σ c).1.current = some
        { Type_ := strFile, Content := [], Filename := file.filename,
          MimeType := file.contentType, FileID := c.fileID, Timestamp := c.now } ∧
      (∀ k, (uploadHandler σ c).1.slotAt k = σ.slotAt k) ∧
      mapGet (uploadHandler σ c).1.disk.files c.fileID = some file.data) := by
  obtain ⟨parse, formFile, fileID, create, copy, now, flush⟩ := c
  constructor
  · intro h
    cases parse with
    | error e => exact ⟨Or.inl rfl, ⟨e, rfl⟩, rfl, rfl, rfl, fun _ => rfl, rfl, rfl⟩
    | ok u =>
      cases formFile with
      | error e => exact ⟨Or.inl rfl, ⟨e, rfl⟩, rfl, rfl, rfl, fun _ => rfl, rfl, rfl⟩
      | ok file =>
        cases create with
        | error e => exact ⟨Or.inr rfl, ⟨e, rfl⟩, rfl, rfl, rfl, fun _ => rfl, rfl, rfl⟩
        | ok u₂ =>
          cases copy with
          | error e => exact ⟨Or.inr rfl, ⟨e.1, rfl⟩, rfl, rfl, rfl, fun _ => rfl, rfl, rfl⟩
          | ok u₃ => simp at h
  · intro file hp hf hc hcp
    simp only at hp hf hc hcp
    subst hp hf hc hcp
    refine ⟨rfl, rfl, fun _ => rfl, ?_⟩
    simp [uploadHandler, saveData, mapSet, mapGet]

/-- Witness for C8: on the greeting store, an upload whose copy fails leaves
the current item as it was, and the upload of `a.txt` answers with blob ID
`"b1"`. -/
theorem upload_atomic_witness :
    (uploadHandler exState exUploadFailing).1.current = exState.current ∧
    (uploadHandler exState exUpload).2 = ⟨200, .statusOkFileId [98, 49]⟩ :=
  ⟨((upload_atomic exState exUploadFailing).1
      (Or.inr (Or.inr (Or.inr ⟨_, rfl⟩)))).2.2.2.2.1,
   ((upload_atomic exState exUpload).2 _ rfl rfl rfl rfl).1⟩

/-- C9, as stated, fails: the greeting store holds slot `"s1"`, and the
answer of `loadSlot("s1")` does not carry the slot's item. -/
theorem loadSlot_returns_no_item :
    exState.slotAt exSlotID = some exSlot ∧
    (loadSlotHandler exState (loadPath exSlotID) FlushIO.success).2.body ≠
      .item exSlot.Item := by
  decide

/-- C9, amended: for every store state and every slot ID under which the
store holds a slot, `loadSlot(id)` answers 200 with the acknowledgement
`{"status": "ok"}` only; the slot's item is made the current item, and it is
the following `getCurrent()` that returns it. -/
theorem loadSlot_acknowledges (σ : State) (id : GoString) (slot : SavedSlot) (io : FlushIO)
    (h : σ.slotAt id = some slot) :
    (loadSlotHandler σ (loadPath id) io).2 = ⟨200, .statusOk⟩ ∧
    getCurrentHandler (loadSlotHandler σ (loadPath id) io).1 = ⟨200, .item slot.Item⟩ := by
  obtain ⟨addr, hg, hobj⟩ := slotAt_eq_some σ id slot h
  rw [loadSlotHandler_found σ id addr io hg]
  refine ⟨rfl, ?_⟩
  show (⟨200, .item (State.obj _ addr).Item⟩ : Response) = _
  rw [← hobj]; rfl

/-- Witness for the amended C9 on the greeting store. -/
theorem loadSlot_acknowledges_witness :
    exState.slotAt exSlotID = some exSlot ∧
    (loadSlotHandler exState (loadPath exSlotID) FlushIO.success).2 = ⟨200, .statusOk⟩ ∧
    getCurrentHandler (loadSlotHandler exState (loadPath exSlotID) FlushIO.success).1 =
      ⟨200, .item helloItem⟩ :=
  ⟨by decide, loadSlot_acknowledges exState exSlotID exSlot FlushIO.success (by decide)⟩

/-- C1 at a text of 50 characters in 51 bytes: the specification's rule keeps
the whole content, while `createSlot` stores the first 50 bytes, which end in
the middle of the last character, followed by `"..."`. -/
theorem createSlot_preview_splits_character :
    (chars splitContent).length = 50 ∧ splitContent.length = 51 ∧
    previewSpec splitItem = splitContent ∧
    (splitState.slotAt exSlotID).map SavedSlot.Preview =
      some (List.replicate 49 97 ++ [0xC3] ++ strEllipsis) ∧
    (splitState.slotAt exSlotID).map SavedSlot.Preview ≠ some (previewSpec splitItem) := by
  decide

/-- C7, as stated, fails at the store that holds the slot saved from
`splitItem`: its preview ends in a cut character, the successful flush writes
it coerced to valid UTF-8, and the store loaded from the written documents
holds a slot with a different preview. -/
theorem flush_load_alters_preview :
    (splitState.slotAt exSlotID).map SavedSlot.Preview =
      some (List.replicate 49 97 ++ [0xC3] ++ strEllipsis) ∧
    ((NewServer exDataDir (saveData splitState FlushIO.success).disk).slotAt exSlotID).map
        SavedSlot.Preview =
      some (List.replicate 49 97 ++ [0xEF, 0xBF, 0xBD] ++ strEllipsis) ∧
    (NewServer exDataDir (saveData splitState FlushIO.success).disk).slotAt exSlotID ≠
      splitState.slotAt exSlotID := by
  decide

/-! ## Characters and well-formed strings -/

/-- A well-formed sequence is at least one byte and lies within the string. -/
theorem runeWidth_bounds (s : GoString) (w : Nat) (h : runeWidth s = some w) :
    0 < w ∧ w ≤ s.length := by
  match s with
  | [] => simp [runeWidth] at h
  | [b0] =>
    simp only [runeWidth] at h
    split_ifs at h
    simp_all
    omega
  | [b0, b1] =>
    simp only [runeWidth] at h
    split_ifs at h <;> simp_all <;> omega
  | [b0, b1, b2] =>
    simp only [runeWidth] at h
    split_ifs at h <;> simp_all <;> omega
  | b0 :: b1 :: b2 :: b3 :: rest =>
    simp only [runeWidth] at h
    split_ifs at h <;> simp_all <;> omega

/-- With at least `s.length` steps the walk reaches the end of the string:
the characters, put together, are the string. -/
theorem runeChunks_flatten (fuel : Nat) (s : GoString) (h : s.length ≤ fuel) :
    (runeChunks fuel s).flatten = s := by
  induction fuel generalizing s with
  | zero =>
    have : s = [] := List.length_eq_zero.mp (Nat.le_zero.mp h)
    subst this; rfl
  | succ n ih =>
    match s with
    | [] => rfl
    | b :: rest =>
      simp only [runeChunks]
      cases hw : runeWidth (b :: rest) with
      | none =>
        simp only [List.flatten_cons]
        rw [ih rest (by simpa using h)]
        rfl
      | some w =>
        obtain ⟨hpos, hle⟩ := runeWidth_bounds _ _ hw
        simp only [List.flatten_cons]
        rw [ih _ (by simp only [List.length_drop]; simp only [List.length_cons] at h hle ⊢; omega)]
        exact List.take_append_drop w (b :: rest)

theorem chars_flatten (s : GoString) : (chars s).flatten = s :=
  runeChunks_flatten _ _ (Nat.le_refl _)

/-- The JSON trip keeps a well-formed string as it is. -/
theorem jsonString_of_valid (s : GoString) (h : ValidUTF8 s) : jsonString s = s := by
  unfold jsonString
  have : (chars s).map (fun c => if (runeWidth c).isSome then c else replacementChar) =
      (chars s).map id := by
    apply List.map_congr_left
    intro c hc
    simp [h c hc]
  rw [this, List.map_id, chars_flatten]

theorem jsonItem_of_valid (i : SyncItem) (h : ValidItem i) : jsonItem i = i := by
  obtain ⟨h1, h2, h3, h4, h5, h6⟩ := h
  simp [jsonItem, jsonString_of_valid, h1, h2, h3, h4, h5, h6]

theorem jsonSlot_of_valid (x : SavedSlot) (h : ValidSlot x) : jsonSlot x = x := by
  obtain ⟨h1, h2, h3, h4, h5, h6⟩ := h
  simp [jsonSlot, jsonString_of_valid, jsonItem_of_valid, h1, h2, h3, h4, h5, h6]

theorem runeChunks_ascii (fuel : Nat) (s : GoString) (h : s.length ≤ fuel)
    (ha : ∀ b ∈ s, b < 0x80) : runeChunks fuel s = s.map fun b => [b] := by
  induction fuel generalizing s with
  | zero =>
    have : s = [] := List.length_eq_zero.mp (Nat.le_zero.mp h)
    subst this; rfl
  | succ n ih =>
    match s with
    | [] => rfl
    | b :: rest =>
      have hb : b < 0x80 := ha b (List.mem_cons_self _ _)
      have hw : runeWidth (b :: rest) = some 1 := by simp [runeWidth, hb]
      simp only [runeChunks, hw, List.map_cons]
      rw [List.drop_one, List.tail_cons, ih rest (by simpa using h)
        (fun x hx => ha x (List.mem_cons_of_mem _ hx))]
      rfl

/-- In a string of single-byte characters every byte is a character. -/
theorem chars_ascii (s : GoString) (ha : ∀ b ∈ s, b < 0x80) : chars s = s.map fun b => [b] :=
  runeChunks_ascii _ _ (Nat.le_refl _) ha

theorem flatten_map_singleton (s : GoString) : (s.map fun b => [b]).flatten = s := by
  induction s with
  | nil => rfl
  | cons b rest ih => simp [ih]

theorem getD_length_append (l : List SavedSlot) (x d : SavedSlot) :
    (l ++ [x]).getD l.length d = x := by
  simp [List.getD_eq_getElem?_getD]

theorem getD_append_lt (l : List SavedSlot) (x d : SavedSlot) (a : Nat) (h : a < l.length) :
    (l ++ [x]).getD a d = l.getD a d := by
  simp [List.getD_eq_getElem?_getD, List.getElem?_append_left h]

/-- The slot that `createSlot` stores under the generated ID. -/
theorem createSlotHandler_slotAt (σ : State) (req : CreateSlotRequest) (slotID now : GoString)
    (io : FlushIO) :
    (createSlotHandler σ (.ok req) slotID now io).1.slotAt slotID = some
      { ID := slotID, Name := req.Name, Type_ := req.Item.Type_, SavedAt := now,
        Preview :=
          if req.Item.Type_ = strText ∧ req.Item.Content.length > 0 then
            if req.Item.Content.length > 50 then req.Item.Content.take 50 ++ strEllipsis
            else req.Item.Content
          else [],
        Item := req.Item } := by
  unfold State.slotAt State.obj
  simp only [createSlotHandler, saveData]
  simp [mapSet, mapGet, getD_length_append]

/-- On content of single-byte characters, where bytes and characters
coincide, the preview that `createSlot` stores is the one the specification's
rule gives. -/
theorem createSlot_preview_ascii (σ : State) (req : CreateSlotRequest) (slotID now : GoString)
    (io : FlushIO) (ha : ∀ b ∈ req.Item.Content, b < 0x80) :
    ((createSlotHandler σ (.ok req) slotID now io).1.slotAt slotID).map SavedSlot.Preview =
      some (previewSpec req.Item) := by
  rw [createSlotHandler_slotAt]
  simp only [Option.map_some', previewSpec, chars_ascii _ ha, List.length_map, ← List.map_take,
    flatten_map_singleton]
  by_cases ht : req.Item.Type_ = strText
  · by_cases hl : 50 < req.Item.Content.length
    · have : 0 < req.Item.Content.length := by omega
      simp [ht, hl, this]
    · by_cases h0 : 0 < req.Item.Content.length
      · simp [ht, hl, h0]
      · have : req.Item.Content = [] := List.length_eq_zero.mp (by omega)
        simp [ht, this]
  · simp [ht]

/-! ## More on maps -/

theorem mapGet_map_val {β γ : Type} (f : β → γ) (m : List (GoString × β)) (k : GoString) :
    mapGet (m.map fun e => (e.1, f e.2)) k = (mapGet m k).map f := by
  induction m with
  | nil => rfl
  | cons e rest ih =>
    obtain ⟨a, v⟩ := e
    by_cases ha : a = k
    · simp [mapGet, ha]
    · simpa [mapGet, ha] using ih

theorem mapGet_mem {β : Type} (m : List (GoString × β)) (k : GoString) (v : β)
    (h : mapGet m k = some v) : (k, v) ∈ m := by
  induction m with
  | nil => simp [mapGet] at h
  | cons e rest ih =>
    obtain ⟨a, w⟩ := e
    by_cases ha : a = k
    · simp [mapGet, ha] at h
      simp [ha, h]
    · simp [mapGet, ha] at h
      exact List.mem_cons_of_mem _ (ih h)

/-- With distinct keys, lookup does not depend on the order of the entries. -/
theorem mapGet_perm {β : Type} {m₁ m₂ : List (GoString × β)} (p : m₁.Perm m₂)
    (nd : (m₁.map Prod.fst).Nodup) (k : GoString) : mapGet m₁ k = mapGet m₂ k := by
  induction p with
  | nil => rfl
  | cons x _ ih =>
    obtain ⟨a, v⟩ := x
    simp only [List.map_cons, List.nodup_cons] at nd
    simp only [mapGet, ih nd.2]
  | swap x y l =>
    obtain ⟨a, v⟩ := x
    obtain ⟨b, w⟩ := y
    simp only [List.map_cons, List.nodup_cons, List.mem_cons] at nd
    have hab : b ≠ a := fun h => nd.1 (Or.inl h)
    by_cases ha : a = k
    · have hb : ¬ b = k := fun h => hab (h.trans ha.symm)
      simp [mapGet, ha, hb]
    · simp [mapGet, ha]
  | trans p₁ _ ih₁ ih₂ =>
    rw [ih₁ nd, ih₂ ((p₁.map Prod.fst).nodup_iff.mp nd)]

theorem mapGet_append {β : Type} (m₁ m₂ : List (GoString × β)) (k : GoString) :
    mapGet (m₁ ++ m₂) k = (mapGet m₁ k).or (mapGet m₂ k) := by
  induction m₁ with
  | nil => simp [mapGet]
  | cons e rest ih =>
    obtain ⟨a, v⟩ := e
    by_cases ha : a = k
    · simp [mapGet, ha]
    · simpa [mapGet, ha] using ih

theorem mapDelete_keys_nodup {β : Type} (m : List (GoString × β)) (k : GoString)
    (nd : (m.map Prod.fst).Nodup) : ((mapDelete m k).map Prod.fst).Nodup :=
  nd.sublist ((List.filter_sublist m).map Prod.fst)

theorem mapSet_keys_nodup {β : Type} (m : List (GoString × β)) (k : GoString) (v : β)
    (nd : (m.map Prod.fst).Nodup) : ((mapSet m k v).map Prod.fst).Nodup := by
  simp only [mapSet, List.map_cons, List.nodup_cons]
  refine ⟨?_, mapDelete_keys_nodup m k nd⟩
  intro hmem
  obtain ⟨e, he, hk⟩ := List.mem_map.mp hmem
  simp [mapDelete] at he
  exact he.2 hk

/-! ## Loading the slots document -/

theorem loadEntry_alloc (σ : State) (e : GoString × SavedSlot) (h : σ.Alloc) :
    (loadEntry σ e).Alloc := by
  intro x hx
  simp only [loadEntry, mapSet, mapDelete, List.mem_cons, List.mem_filter] at hx
  simp only [loadEntry, List.length_append, List.length_singleton]
  rcases hx with hx | hx
  · subst hx; simp
  · have := h x hx.1; omega

/-- Decoding one member stores its slot under its key and leaves the slots
under other keys as they were. -/
theorem loadEntry_slotAt (σ : State) (e : GoString × SavedSlot) (h : σ.Alloc) (k : GoString) :
    (loadEntry σ e).slotAt k = if e.1 = k then some e.2 else σ.slotAt k := by
  unfold State.slotAt State.obj
  simp only [loadEntry, mapSet]
  by_cases hk : e.1 = k
  · simp [mapGet, hk, getD_length_append]
  · have hk' : ¬ k = e.1 := fun h => hk h.symm
    simp only [mapGet, hk, if_false, mapGet_mapDelete, hk']
    cases hg : mapGet σ.s.slots k with
    | none => rfl
    | some a =>
      have := h _ (mapGet_mem _ _ _ hg)
      simp only [Option.map_some']
      rw [getD_append_lt _ _ _ _ this]

/-- After decoding a document, a key holds the slot of its last member with
that key, or what it held before. -/
theorem foldl_loadEntry_slotAt (es : List (GoString × SavedSlot)) (σ : State) (h : σ.Alloc)
    (k : GoString) :
    (es.foldl loadEntry σ).slotAt k = (mapGet es.reverse k).or (σ.slotAt k) := by
  induction es generalizing σ with
  | nil => simp [mapGet]
  | cons e rest ih =>
    simp only [List.foldl_cons, List.reverse_cons]
    rw [ih _ (loadEntry_alloc σ e h), mapGet_append, loadEntry_slotAt σ e h]
    cases mapGet rest.reverse k with
    | some v => simp
    | none =>
      by_cases hk : e.1 = k
      · simp [mapGet, hk]
      · simp [mapGet, hk]

theorem foldl_loadEntry_currentItem (es : List (GoString × SavedSlot)) (σ : State) :
    (es.foldl loadEntry σ).s.currentItem = σ.s.currentItem := by
  induction es generalizing σ with
  | nil => rfl
  | cons e rest ih => simp only [List.foldl_cons]; rw [ih]; rfl

/-- On well-formed strings the slots document holds the slots themselves. -/
theorem marshalSlots_of_valid (σ : State)
    (hv : ∀ e ∈ σ.s.slots, ValidUTF8 e.1 ∧ ValidSlot (σ.obj e.2)) :
    marshalSlots σ =
      (σ.s.slots.insertionSort fun a b => a.1 ≤ b.1).map fun e => (e.1, σ.obj e.2) := by
  unfold marshalSlots
  apply List.map_congr_left
  intro e he
  have hm := hv e ((List.perm_insertionSort _ _).mem_iff.mp he)
  rw [jsonString_of_valid _ hm.1, jsonSlot_of_valid _ hm.2]

theorem mapGet_marshalSlots (σ : State) (nd : (σ.s.slots.map Prod.fst).Nodup)
    (hv : ∀ e ∈ σ.s.slots, ValidUTF8 e.1 ∧ ValidSlot (σ.obj e.2)) (k : GoString) :
    mapGet (marshalSlots σ).reverse k = σ.slotAt k := by
  have hp := List.perm_insertionSort (fun a b : GoString × Nat => a.1 ≤ b.1) σ.s.slots
  have hkeys : ((marshalSlots σ).map Prod.fst).Nodup := by
    rw [marshalSlots_of_valid σ hv, List.map_map]
    exact (hp.map _).nodup_iff.mpr nd
  rw [← mapGet_perm (List.reverse_perm _).symm hkeys k, marshalSlots_of_valid σ hv,
    mapGet_map_val, mapGet_perm hp ((hp.map _).nodup_iff.mpr nd)]
  rfl

/-- The server started on the documents of a successful flush. -/
theorem NewServer_saveData (σ : State) (dir : GoString) :
    NewServer dir (saveData σ FlushIO.success).disk =
      (marshalSlots σ).foldl loadEntry
        { s := { currentItem :=
                   match σ.s.currentItem with
                   | .null => .null
                   | p => .fresh (jsonItem (σ.deref p)),
                 slots := [], dataDir := dir },
          heap := [], disk := (saveData σ FlushIO.success).disk } := by
  obtain ⟨⟨cur, slots, d⟩, heap, disk⟩ := σ
  cases cur <;> rfl

/-! ## Well-formedness of the server -/

theorem WF_loadEntry (σ : State) (e : GoString × SavedSlot) (h : σ.WF) : (loadEntry σ e).WF := by
  refine ⟨loadEntry_alloc σ e h.1, ?_, mapSet_keys_nodup _ _ _ h.2.2⟩
  intro a ha
  have := h.2.1 a ha
  simp only [loadEntry, List.length_append, List.length_singleton]
  omega

theorem WF_foldl_loadEntry (es : List (GoString × SavedSlot)) (σ : State) (h : σ.WF) :
    (es.foldl loadEntry σ).WF := by
  induction es generalizing σ with
  | nil => exact h
  | cons e rest ih => exact ih _ (WF_loadEntry σ e h)

/-- Whatever the data directory holds, the server starts well formed. -/
theorem WF_NewServer (dir : GoString) (disk : Disk) : (NewServer dir disk).WF := by
  have h0 : ∀ p : ItemPtr, (∀ a, p ≠ .slotItem a) →
      State.WF { s := { currentItem := p, slots := [], dataDir := dir }, heap := [],
                 disk := disk } := by
    intro p hp
    exact ⟨by intro e he; simp at he, fun a ha => absurd ha (hp a), by simp⟩
  obtain ⟨cur, slots, files⟩ := disk
  unfold NewServer loadData
  rcases cur with _ | ⟨item⟩ | _ <;> rcases slots with _ | ⟨es⟩ | _ <;>
    first
    | exact h0 _ (by intro a h; cases h)
    | exact WF_foldl_loadEntry _ _ (h0 _ (by intro a h; cases h))

theorem WF_of_frame (σ τ : State) (h : σ.WF) (hs : τ.s.slots = σ.s.slots)
    (hh : τ.heap = σ.heap) (hc : ∀ a, τ.s.currentItem ≠ .slotItem a) : τ.WF := by
  refine ⟨?_, fun a ha => absurd ha (hc a), ?_⟩
  · rw [hs, hh]; exact h.1
  · rw [hs]; exact h.2.2

/-- Every handler keeps the server well formed: no pointer it holds dangles
and the keys of the slot map stay distinct. -/
theorem WF_handlers (σ : State) (h : σ.WF) :
    (∀ body io, (setCurrentHandler σ body io).1.WF) ∧
    (∀ io, (deleteCurrentHandler σ io).1.WF) ∧
    (∀ c, (uploadHandler σ c).1.WF) ∧
    (∀ body slotID now io, (createSlotHandler σ body slotID now io).1.WF) ∧
    (∀ path io, (loadSlotHandler σ path io).1.WF) ∧
    (∀ path io, (deleteSlotHandler σ path io).1.WF) := by
  refine ⟨?_, ?_, ?_, ?_, ?_, ?_⟩
  · intro body io
    cases body with
    | error e => exact h
    | ok item => exact WF_of_frame σ _ h rfl rfl (fun a ha => ItemPtr.noConfusion ha)
  · intro io
    exact WF_of_frame σ _ h rfl rfl (fun a ha => ItemPtr.noConfusion ha)
  · intro c
    obtain ⟨parse, formFile, fileID, create, copy, now, flush⟩ := c
    cases parse <;> cases formFile <;> cases create <;> cases copy <;>
      first
      | exact h
      | exact WF_of_frame σ _ h rfl rfl (fun a ha => ItemPtr.noConfusion ha)
  · intro body slotID now io
    cases body with
    | error e => exact h
    | ok req =>
      refine ⟨?_, ?_, mapSet_keys_nodup _ _ _ h.2.2⟩
      · intro x hx
        simp only [createSlotHandler, saveData, mapSet, mapDelete, List.mem_cons,
          List.mem_filter] at hx
        simp only [createSlotHandler, saveData, List.length_append, List.length_singleton]
        rcases hx with hx | hx
        · subst hx; simp
        · have := h.1 x hx.1; omega
      · intro a ha
        have := h.2.1 a ha
        simp only [createSlotHandler, saveData, List.length_append, List.length_singleton]
        omega
  · intro path io
    simp only [loadSlotHandler]
    split
    · exact h
    · next addr hg =>
      refine ⟨h.1, ?_, h.2.2⟩
      intro a ha
      simp only [saveData] at ha
      cases ha
      exact h.1 _ (mapGet_mem _ _ _ hg)
  · intro path io
    refine ⟨?_, h.2.1, mapDelete_keys_nodup _ _ h.2.2⟩
    intro x hx
    simp only [deleteSlotHandler, saveData, mapDelete, List.mem_filter] at hx
    exact h.1 x hx.1

/-! ## The persistence round trip -/

/-- C7, amended: for every well-formed store state whose strings are all
well-formed UTF-8, a flush whose writes succeed followed by a load from the
same data directory into a new server gives the same current item (or none)
and, under every ID, the same slot (id, name, kind, savedAt, preview and
embedded item). When the current item is absent, the flush leaves no
current-item document and the load yields no current item. -/
theorem flush_load_roundtrip (σ : State) (dir : GoString) (hwf : σ.WF)
    (hv : σ.ValidStrings) :
    (NewServer dir (saveData σ FlushIO.success).disk).current = σ.current ∧
    (∀ k, (NewServer dir (saveData σ FlushIO.success).disk).slotAt k = σ.slotAt k) ∧
    (σ.current = none → (saveData σ FlushIO.success).disk.current = none ∧
      (NewServer dir (saveData σ FlushIO.success).disk).current = none) := by
  have hcur : (NewServer dir (saveData σ FlushIO.success).disk).current = σ.current := by
    rw [NewServer_saveData]
    unfold State.current
    rw [foldl_loadEntry_currentItem]
    have hv1 := hv.1
    unfold State.current at hv1
    cases hc : σ.s.currentItem with
    | null => rfl
    | fresh item =>
      have := hv1 item (by rw [hc]; rfl)
      simp only [State.deref]
      rw [jsonItem_of_valid _ this]
    | slotItem addr =>
      have := hv1 (σ.deref (.slotItem addr)) (by rw [hc])
      simp only [State.deref] at this ⊢
      rw [jsonItem_of_valid _ this]
  refine ⟨hcur, fun k => ?_, fun hn => ⟨?_, by rw [hcur, hn]⟩⟩
  · rw [NewServer_saveData, foldl_loadEntry_slotAt _ _ (by intro e he; simp at he),
      mapGet_marshalSlots σ hwf.2.2 hv.2]
    cases σ.slotAt k <;> rfl
  · unfold State.current at hn
    cases hc : σ.s.currentItem with
    | null => simp [saveData, hc, FlushIO.success, WriteResult.leave]
    | fresh item => simp [hc] at hn
    | slotItem addr => simp [hc] at hn

/-- The store with the hello item and the greeting slot is well formed and
holds well-formed strings only. -/
theorem helloState_ok : helloState.WF ∧ helloState.ValidStrings := by
  refine ⟨⟨by decide, fun a ha => ?_, by decide⟩, fun i hi => ?_, by decide⟩
  · have h : helloState.s.currentItem = .fresh helloItem := by decide
    rw [h] at ha
    cases ha
  · have h : helloState.current = some helloItem := by decide
    rw [h] at hi
    cases hi
    decide

/-- Witness for the amended C7: the store with the hello item and the
greeting slot comes back from its documents. -/
theorem flush_load_roundtrip_witness :
    (helloState.WF ∧ helloState.ValidStrings) ∧
    (NewServer exDataDir (saveData helloState FlushIO.success).disk).current =
      some helloItem ∧
    (NewServer exDataDir (saveData helloState FlushIO.success).disk).slotAt exSlotID =
      some exSlot :=
  ⟨helloState_ok,
   (flush_load_roundtrip helloState exDataDir helloState_ok.1 helloState_ok.2).1.trans
     (by decide),
   ((flush_load_roundtrip helloState exDataDir helloState_ok.1 helloState_ok.2).2.1
     exSlotID).trans (by decide)⟩

/-- A file name that is not UTF-8 reaches the store through an upload, and
does not come back from the documents as it was. -/
theorem flush_load_alters_upload_filename :
    ((uploadHandler emptyStore exUploadRaw).1.current).map SyncItem.Filename =
      some [0xFF, 46, 116, 120, 116] ∧
    ((NewServer exDataDir (uploadHandler emptyStore exUploadRaw).1.disk).current).map
        SyncItem.Filename =
      some [0xEF, 0xBF, 0xBD, 46, 116, 120, 116] := by
  decide

end Connexio
